import Mathlib

/-!
Verification of the quick-sticks matchmaking broker and websocket
connection manager.

The Go sources embedded here:
* `hand.go` — `GameBroker`: `NewGameBroker`, `RequestGame`,
  `matchmakingWorker`, `createGame`, `manageGameSession`,
  `GetAvailableSlots`, `respondWithError`, `Stop`.
* `websocket/websocket.go` — `client` (`NewClient`, `Write`) and
  `manager` (`Run`, `RegisterClient`, `UnregisterClient`, `Clients`).
* the rule engine `Game` (`NewGame`, `AddPlayer`, `StartGame`).

Concurrency is embedded as explicit transition systems: every
interleaving of the Go program corresponds to a list of events (or a
`Reachable` derivation), and theorems quantify over all of them.
Machine integers are modelled as `Nat`/`Int`; Go channels as explicit
queues or counters (`len` of a buffered channel is the element count).
-/

namespace QuickSticks

/-! ## Admission-token semaphore (hand.go)

`gameSemaphore` is `make(chan struct{}, maxConcurrentGames)`.  Its
length (`len(gb.gameSemaphore)`) is the number of tokens currently
held.  The state also tracks how many `createGame` calls hold a token
while still constructing (`constructing`) and how many registered
sessions hold one (`live`), so that "a session holds exactly one token
from creation to termination" is expressible.  `held` is an `Int` so
that "never negative" is a real statement about the embedded counter. -/

structure SemState where
  held : Int
  constructing : Nat
  live : Nat
deriving DecidableEq, Repr

/-- Transitions of the token pool, one per program point in `hand.go`
that touches `gameSemaphore` or the `activeGames` registry:

* `acquire`: `case gb.gameSemaphore <- struct{}{}` in `createGame`
  (line 208); ready iff the buffer has space, i.e. `held < max`.
* `acquireFail`: the `default` branch (line 210); taken iff the buffer
  is full, i.e. `held = max`.  No token changes hands.
* `constructFail`: any of the three `<-gb.gameSemaphore // Release slot`
  paths after `AddPlayer`/`StartGame` errors (lines 230, 236, 243).
* `registerSession`: `gb.activeGames[gameID] = session` (line 259); the
  construction's token is now the session's token.
* `sessionEnd`: the deferred `<-gb.gameSemaphore // Release slot` in
  `manageGameSession` (line 285), run exactly once when a session's
  supervisor exits (game finished, deadline, cancellation, or stale
  sweep). -/
inductive SemStep (max : Nat) : SemState → SemState → Prop
  | acquire (s : SemState) (h : s.held < (max : Int)) :
      SemStep max s ⟨s.held + 1, s.constructing + 1, s.live⟩
  | acquireFail (s : SemState) (h : s.held = (max : Int)) :
      SemStep max s s
  | constructFail (s : SemState) (h : 0 < s.constructing) :
      SemStep max s ⟨s.held - 1, s.constructing - 1, s.live⟩
  | registerSession (s : SemState) (h : 0 < s.constructing) :
      SemStep max s ⟨s.held, s.constructing - 1, s.live + 1⟩
  | sessionEnd (s : SemState) (h : 0 < s.live) :
      SemStep max s ⟨s.held - 1, s.constructing, s.live - 1⟩

/-- States reachable from a fresh `NewGameBroker(max)`: an empty
semaphore channel, no constructions in flight, no live sessions. -/
inductive SemReachable (max : Nat) : SemState → Prop
  | init : SemReachable max ⟨0, 0, 0⟩
  | step {s t : SemState} : SemReachable max s → SemStep max s t → SemReachable max t

/-- Embedding of `GetAvailableSlots` (hand.go lines 401-404): it returns
`len(gb.gameSemaphore)`, i.e. the number of tokens currently held. -/
def GetAvailableSlots (s : SemState) : Int := s.held

/-- Modelled from the spec: "remaining admission tokens" — the
configured maximum minus the tokens currently held by live sessions. -/
def specAvailableSlots (max : Nat) (s : SemState) : Int := (max : Int) - s.held

/-! ## Matchmaking worker trace semantics (hand.go: matchmakingWorker)

The worker is the single consumer of `gb.queue`.  One execution
interleaving is a list of `BrokerEvent`s, in the order the worker's
`select` resolves them:

* `req i` — a request is received from the queue (`case request, ok :=
  <-gb.queue` delivering a non-nil request); `i` is the arrival index.
* `sessionEnd` — some live session's supervisor released its token
  between two worker iterations.
* `ctxDone` — the `case <-gb.ctx.Done()` branch fires: the worker sends
  a "matchmaking cancelled" response to the waiting request, if any,
  and returns.
* `queueClosed` — the closed, drained queue delivers `nil`; the worker
  returns at `if request == nil` without responding to anyone.

Events after the worker returns are left unprocessed: those requests
stay in the queue and never receive a response.  The success branch
inlines `createGame` with the concrete rule engine, for which a fresh
game's `AddPlayer`/`AddPlayer`/`StartGame` calls always succeed
(`freshGameConstruction` below); admission is the only failure mode on
this path. -/

inductive BrokerEvent where
  | req (id : Nat)
  | sessionEnd
  | ctxDone
  | queueClosed
deriving DecidableEq, Repr

/-- Replies that the worker or `createGame` can deliver on a request's
response channel along the concrete-engine trace semantics. -/
inductive Reply where
  | game
  | capacity
  | cancelled
deriving DecidableEq, Repr

structure WorkerOut where
  pairs : List (Nat × Nat)
  sessions : List (Nat × Nat)
  responded : List (Nat × Reply)
deriving DecidableEq, Repr

/-- Trace semantics of `matchmakingWorker` (hand.go lines 164-202) with
`createGame` (lines 205-274) inlined; `held` is `len(gameSemaphore)` and
`waiting` the local `waitingPlayer`. -/
def matchmakingWorker (max : Nat) : Nat → Option Nat → List BrokerEvent → WorkerOut
  | _, _, [] => ⟨[], [], []⟩
  | held, none, .req i :: evs => matchmakingWorker max held (some i) evs
  | held, some w, .req i :: evs =>
      if held < max then
        let o := matchmakingWorker max (held + 1) none evs
        ⟨(w, i) :: o.pairs, (w, i) :: o.sessions,
          (w, .game) :: (i, .game) :: o.responded⟩
      else
        let o := matchmakingWorker max held none evs
        ⟨(w, i) :: o.pairs, o.sessions,
          (w, .capacity) :: (i, .capacity) :: o.responded⟩
  | held, waiting, .sessionEnd :: evs => matchmakingWorker max (held - 1) waiting evs
  | _, some w, .ctxDone :: _ => ⟨[], [], [(w, .cancelled)]⟩
  | _, none, .ctxDone :: _ => ⟨[], [], []⟩
  | _, _, .queueClosed :: _ => ⟨[], [], []⟩

/-- Arrival order of the requests an event list delivers. -/
def reqIds : List BrokerEvent → List Nat
  | [] => []
  | .req i :: evs => i :: reqIds evs
  | _ :: evs => reqIds evs

/-- Consecutive pairing of a list: elements 1-2, 3-4, … -/
def pairChunks : List Nat → List (Nat × Nat)
  | x :: y :: l => (x, y) :: pairChunks l
  | _ => []

/-- Both participants of each pairing, in pairing order. -/
def pairedIds : List (Nat × Nat) → List Nat
  | [] => []
  | (a, b) :: l => a :: b :: pairedIds l

/-- Request ids that got a reply delivered on their response channel. -/
def respondedIds (o : WorkerOut) : List Nat := o.responded.map Prod.fst

/-! ## createGame with explicit engine-call results (hand.go lines 205-274)

The spec treats the rule engine as an external collaborator (§1, §6),
so this embedding of `createGame` takes the result of each of the three
engine calls (`game.AddPlayer(player1)`, `game.AddPlayer(player2)`,
`game.StartGame()`) as a parameter: `none` is a nil error, `some e` the
error message returned.  The concrete engine from the source is
embedded further below and shown to make all three calls succeed on a
fresh game. -/

/-- Wire result of matchmaking as seen by one request: the code returns
`response.Game, response.Error`. -/
inductive MMOutcome where
  | game (id : String)
  | err (msg : String)
deriving DecidableEq, Repr

def capacityMsg : String := "server at capacity"

structure EngineResults where
  addPlayer1 : Option String
  addPlayer2 : Option String
  startGame : Option String
deriving DecidableEq, Repr

/-- Broker state visible to `createGame`: the semaphore length and the
keys of `activeGames`. -/
structure CGState where
  held : Nat
  activeIds : List String
deriving DecidableEq, Repr

structure CGOutput where
  state : CGState
  resp1 : MMOutcome
  resp2 : MMOutcome
  registered : Bool
deriving DecidableEq, Repr

/-- Embedding of `createGame`.  The non-blocking try-acquire
(`select`/`default`) succeeds iff the semaphore buffer has room
(`held < max`).  On each construction error the code calls
`respondWithError` (both requests get the same error) and then
`<-gb.gameSemaphore` releases the token before returning — written here
as `held + 1 - 1`.  On success the session is registered and both
requests receive the game. -/
def createGame (max : Nat) (eng : EngineResults) (gid : String) (s : CGState) : CGOutput :=
  if s.held < max then
    match eng.addPlayer1 with
    | some e => ⟨⟨s.held + 1 - 1, s.activeIds⟩, .err e, .err e, false⟩
    | none =>
      match eng.addPlayer2 with
      | some e => ⟨⟨s.held + 1 - 1, s.activeIds⟩, .err e, .err e, false⟩
      | none =>
        match eng.startGame with
        | some e => ⟨⟨s.held + 1 - 1, s.activeIds⟩, .err e, .err e, false⟩
        | none => ⟨⟨s.held + 1, gid :: s.activeIds⟩, .game gid, .game gid, true⟩
  else
    ⟨s, .err capacityMsg, .err capacityMsg, false⟩

/-! ## Concrete rule engine (Game: NewGame, AddPlayer, StartGame) -/

inductive GameSt where
  | waiting
  | ready
  | inProgress
  | finished
deriving DecidableEq, Repr

structure Player where
  id : String
  name : String
deriving DecidableEq, Repr

structure Game where
  id : String
  player1 : Option Player
  player2 : Option Player
  currentTurn : Nat
  state : GameSt
  winner : Option Player
deriving DecidableEq, Repr

def NewGame (id : String) : Game :=
  { id := id, player1 := none, player2 := none, currentTurn := 0,
    state := .waiting, winner := none }

/-- Embedding of the engine's `AddPlayer`: rejects unless the game is
still waiting; fills Player1 first, then Player2 (switching to ready);
rejects a full game. -/
def Game.AddPlayer (g : Game) (p : Player) : Except String Game :=
  if g.state ≠ GameSt.waiting then
    .error "game is not accepting players"
  else
    match g.player1 with
    | none => .ok { g with player1 := some p }
    | some _ =>
      match g.player2 with
      | none => .ok { g with player2 := some p, state := .ready }
      | some _ => .error "game is full"

/-- Embedding of the engine's `StartGame`: requires the ready state and
both players, then moves to in-progress with Player1 to act. -/
def Game.StartGame (g : Game) : Except String Game :=
  if g.state ≠ GameSt.ready then
    .error "game is not ready to start"
  else
    match g.player1, g.player2 with
    | some _, some _ => .ok { g with state := .inProgress, currentTurn := 0 }
    | _, _ => .error "need two players to start"

/-! ## RequestGame enqueue phase (hand.go lines 134-161)

`RequestGame` first tries to put the request into `gb.queue`, a
buffered channel of capacity 1000, racing a `time.After(5 * time.Second)`
timer and `gb.ctx.Done()`.  When the queue has room the send is
immediately ready; when the queue stays full and the broker is not
cancelled, the timer fires after 5 seconds and the call returns the
"matchmaking queue is full" error. -/

def queueCapacity : Nat := 1000

def enqueueTimeoutSeconds : Nat := 5

inductive EnqueueOutcome where
  | queued
  | queueFull
  | shuttingDown
deriving DecidableEq, Repr

structure EnqueueResult where
  outcome : EnqueueOutcome
  waitedSeconds : Nat
deriving DecidableEq, Repr

/-- Enqueue phase of `RequestGame` as a function of the queue length
(assumed sustained over the window) and whether the broker context is
cancelled. -/
def RequestGameEnqueue (queueLen : Nat) (brokerCancelled : Bool) : EnqueueResult :=
  if queueLen < queueCapacity then ⟨.queued, 0⟩
  else if brokerCancelled then ⟨.shuttingDown, 0⟩
  else ⟨.queueFull, enqueueTimeoutSeconds⟩

/-! ## Websocket client (websocket.go: NewClient, Write) -/

/-- Capacity of the outbound queue: `NewClient` builds
`egress: make(chan []byte, 32)`. -/
def egressCapacity : Nat := 32

/-- A client's outbound queue; each element is one byte slice. -/
structure ClientState where
  egress : List (List Nat)
deriving DecidableEq, Repr

structure WriteResult where
  state : ClientState
  n : Nat
  err : Option String
deriving DecidableEq, Repr

/-- Embedding of `client.Write` (websocket.go lines 155-158):
`c.egress <- p; return len(p), nil`.  A send on a buffered channel
suspends the caller until the buffer has room and cannot fail (the
egress channel is never closed in this package), so the completed call
appends `p` and reports `(len(p), nil)`. -/
def Client.Write (s : ClientState) (p : List Nat) : WriteResult :=
  ⟨⟨s.egress ++ [p]⟩, p.length, none⟩

/-! ## Websocket connection manager (websocket.go: manager, Run)

Clients and cancellation handles are identified by `Nat` tags.  The Go
map `clients map[Client]context.CancelFunc` is an association list with
map semantics (registration overwrites).  The bookkeeping lists
`cancelledHandles` and `closedClients` record every `cancel()` and
`Close()` invocation, so "exactly once" is a statement about their
element counts. -/

structure MgrState where
  clients : List (Nat × Nat)
  cancelledHandles : List Nat
  closedClients : List Nat
deriving DecidableEq, Repr

/-- Messages processed by `manager.Run`, plus the external
cancellation.  `register`/`unregister` correspond to `RegisterClient`
and `UnregisterClient`, which send a `regreq` and block on its `done`
channel. -/
inductive MgrEvent where
  | register (c cf : Nat)
  | unregister (c : Nat)
  | ctxDone
deriving DecidableEq, Repr

def containsClient (l : List (Nat × Nat)) (c : Nat) : Bool :=
  l.any fun p => p.1 == c

def eraseClient (l : List (Nat × Nat)) (c : Nat) : List (Nat × Nat) :=
  l.filter fun p => p.1 != c

def lookupClient (l : List (Nat × Nat)) (c : Nat) : Option Nat :=
  (l.find? fun p => p.1 == c).map Prod.snd

/-- Embedding of the `cleanupClient` helper inside `Run`: invoke the
stored cancel handle if one is present, delete the map entry, and call
the client's `Close`. -/
def cleanupClient (s : MgrState) (c : Nat) : MgrState :=
  { clients := eraseClient s.clients c
    cancelledHandles :=
      match lookupClient s.clients c with
      | some cf => cf :: s.cancelledHandles
      | none => s.cancelledHandles
    closedClients := c :: s.closedClients }

/-- The `ctx.Done()` arm of `Run`: `for client := range m.clients {
cleanupClient(client) }` — clean up every client in the live set (Go's
map iteration order is arbitrary; cleanups of distinct keys commute, so
the snapshot order is used). -/
def teardownAll (s : MgrState) : MgrState :=
  s.clients.foldl (fun t p => cleanupClient t p.1) s

structure MgrStepOut where
  state : MgrState
  exits : Bool
  acked : Bool
deriving DecidableEq, Repr

/-- One iteration of the `select` in `manager.Run` (websocket.go lines
358-392).  `exits` records whether the loop returns after the event —
no arm of the source's `select` contains a `return`, so it is `false`
for every event, including `ctxDone`.  `acked` records whether
`rr.done` is signalled, unblocking the caller of
`RegisterClient`/`UnregisterClient`; both the present and the absent
branch of the unregister arm signal it. -/
def managerRunStep (s : MgrState) (e : MgrEvent) : MgrStepOut :=
  match e with
  | .ctxDone => ⟨teardownAll s, false, false⟩
  | .register c cf => ⟨{ s with clients := (c, cf) :: eraseClient s.clients c }, false, true⟩
  | .unregister c =>
      if containsClient s.clients c then ⟨cleanupClient s c, false, true⟩
      else ⟨s, false, true⟩

def mgrInit : MgrState := ⟨[], [], []⟩

def mgrRun (evs : List MgrEvent) : MgrState :=
  evs.foldl (fun s e => (managerRunStep s e).state) mgrInit

/-- Enumeration surface (`Clients()`): the keys of the live map. -/
def Clients (s : MgrState) : List Nat := s.clients.map Prod.fst

/-- One step of the spec-side liveness bookkeeping for connection `c`:
registering it makes it live, unregistering it makes it not live,
external cancellation removes everything. -/
def specLiveStep (c : Nat) (b : Bool) : MgrEvent → Bool
  | .register c2 _ => if c2 = c then true else b
  | .unregister c2 => if c2 = c then false else b
  | .ctxDone => false

/-- Modelled from the spec: a connection is live after a sequence of
operations iff it has been registered and not unregistered (or torn
down) since. -/
def specLive (evs : List MgrEvent) (c : Nat) : Bool :=
  evs.foldl (specLiveStep c) false

/-! ## Supporting lemmas -/

/-- Inductive invariant of the admission-token pool: the semaphore
length always equals in-flight constructions plus live sessions, and
stays within `[0, max]`. -/
theorem semInvariant {max : Nat} {s : SemState} (h : SemReachable max s) :
    s.held = s.constructing + s.live ∧ 0 ≤ s.held ∧ s.held ≤ (max : Int) := by
  induction h with
  | init => simp
  | step hr hs ih =>
    obtain ⟨heq, hnn, hle⟩ := ih
    cases hs with
    | acquire h => dsimp only; refine ⟨by omega, by omega, by omega⟩
    | acquireFail h => exact ⟨heq, hnn, hle⟩
    | constructFail h => dsimp only; refine ⟨by omega, by omega, by omega⟩
    | registerSession h => dsimp only; refine ⟨by omega, by omega, by omega⟩
    | sessionEnd h => dsimp only; refine ⟨by omega, by omega, by omega⟩

/-- On the fresh game built by `createGame` the three construction
steps never fail, which is why the concrete-engine trace semantics
(`matchmakingWorker`) has admission as its only failure branch. -/
theorem freshGameConstruction (gid : String) (p q : Player) :
    (NewGame gid).AddPlayer p = .ok { NewGame gid with player1 := some p } ∧
    ({ NewGame gid with player1 := some p } : Game).AddPlayer q =
      .ok { NewGame gid with player1 := some p, player2 := some q, state := .ready } ∧
    ({ NewGame gid with player1 := some p, player2 := some q, state := .ready } : Game).StartGame =
      .ok { NewGame gid with player1 := some p, player2 := some q, state := .inProgress } :=
  ⟨rfl, rfl, rfl⟩

/-- The worker pairs request arrivals strictly consecutively: starting
with an empty waiting slot it produces the consecutive chunks of the
arrival list, and starting with `w` waiting it produces the chunks of
`w` followed by the arrivals. -/
theorem worker_pairs_chunks (l : List Nat) : ∀ max held : Nat,
    (matchmakingWorker max held none (l.map .req)).pairs = pairChunks l ∧
    ∀ w, (matchmakingWorker max held (some w) (l.map .req)).pairs = pairChunks (w :: l) := by
  induction l with
  | nil =>
    intro max held
    exact ⟨rfl, fun w => rfl⟩
  | cons x l ih =>
    intro max held
    refine ⟨?_, ?_⟩
    · show (matchmakingWorker max held (some x) (l.map .req)).pairs = _
      exact (ih max held).2 x
    · intro w
      by_cases h : held < max
      · simp only [List.map_cons, matchmakingWorker, h, if_true]
        simp [(ih max (held + 1)).1, pairChunks]
      · simp only [List.map_cons, matchmakingWorker, h, if_false]
        simp [(ih max held).1, pairChunks]

/-- Sessions are created only for pairings: the session list is a
subsequence of the pairing list. -/
theorem worker_sessions_sublist (evs : List BrokerEvent) : ∀ (max held : Nat)
    (waiting : Option Nat),
    ((matchmakingWorker max held waiting evs).sessions).Sublist
      (matchmakingWorker max held waiting evs).pairs := by
  induction evs with
  | nil =>
    intro max held waiting
    cases waiting <;> exact List.Sublist.refl _
  | cons e evs ih =>
    intro max held waiting
    cases e with
    | req i =>
      cases waiting with
      | none => exact ih max held (some i)
      | some w =>
        by_cases h : held < max
        · simp only [matchmakingWorker, h, if_true]
          exact (ih max (held + 1) none).cons₂ _
        · simp only [matchmakingWorker, h, if_false]
          exact (ih max held none).cons _
    | sessionEnd =>
      cases waiting with
      | none => simpa only [matchmakingWorker] using ih max (held - 1) none
      | some w => simpa only [matchmakingWorker] using ih max (held - 1) (some w)
    | ctxDone => cases waiting <;> simp [matchmakingWorker]
    | queueClosed => cases waiting <;> simp [matchmakingWorker]

/-- Per request id, replies delivered by the worker never outnumber
arrivals (counting an initially waiting request as an arrival). -/
theorem worker_replies_le_arrivals (evs : List BrokerEvent) : ∀ (max held : Nat)
    (waiting : Option Nat) (j : Nat),
    (respondedIds (matchmakingWorker max held waiting evs)).count j ≤
      (waiting.toList ++ reqIds evs).count j := by
  induction evs with
  | nil =>
    intro max held waiting j
    cases waiting <;> simp [matchmakingWorker, respondedIds]
  | cons e evs ih =>
    intro max held waiting j
    cases e with
    | req i =>
      cases waiting with
      | none =>
        have h := ih max held (some i) j
        simp only [matchmakingWorker, reqIds]
        simpa using h
      | some w =>
        have hh1 := ih max (held + 1) none j
        have hh2 := ih max held none j
        by_cases h : held < max <;>
          simp [matchmakingWorker, h, respondedIds, reqIds, List.count_cons,
            List.count_append] at hh1 hh2 ⊢ <;>
          omega
    | sessionEnd =>
      cases waiting with
      | none => simpa only [matchmakingWorker, reqIds] using ih max (held - 1) none j
      | some w => simpa only [matchmakingWorker, reqIds] using ih max (held - 1) (some w) j
    | ctxDone =>
      cases waiting with
      | none => simp [matchmakingWorker, respondedIds]
      | some w =>
        simp [matchmakingWorker, respondedIds, reqIds, List.count_cons, List.count_append]
    | queueClosed =>
      cases waiting <;> simp [matchmakingWorker, respondedIds]

/-- Every request that gets paired receives at least one reply
(`createGame` answers both participants in all of its branches). -/
theorem worker_paired_gets_reply (evs : List BrokerEvent) : ∀ (max held : Nat)
    (waiting : Option Nat) (j : Nat),
    j ∈ pairedIds (matchmakingWorker max held waiting evs).pairs →
    1 ≤ (respondedIds (matchmakingWorker max held waiting evs)).count j := by
  induction evs with
  | nil =>
    intro max held waiting j hj
    cases waiting <;> simp [matchmakingWorker, pairedIds] at hj
  | cons e evs ih =>
    intro max held waiting j hj
    cases e with
    | req i =>
      cases waiting with
      | none => exact ih max held (some i) j hj
      | some w =>
        by_cases h : held < max
        · simp only [matchmakingWorker, h, if_true, pairedIds, respondedIds,
            List.map_cons, List.mem_cons] at hj ⊢
          rcases hj with rfl | rfl | hj
          · simp [List.count_cons]
          · simp [List.count_cons]
            omega
          · have hr := ih max (held + 1) none j hj
            simp only [respondedIds] at hr
            simp only [List.count_cons]
            omega
        · simp only [matchmakingWorker, h, if_false, pairedIds, respondedIds,
            List.map_cons, List.mem_cons] at hj ⊢
          rcases hj with rfl | rfl | hj
          · simp [List.count_cons]
          · simp [List.count_cons]
            omega
          · have hr := ih max held none j hj
            simp only [respondedIds] at hr
            simp only [List.count_cons]
            omega
    | sessionEnd =>
      cases waiting with
      | none =>
        simp only [matchmakingWorker] at hj ⊢
        exact ih max (held - 1) none j hj
      | some w =>
        simp only [matchmakingWorker] at hj ⊢
        exact ih max (held - 1) (some w) j hj
    | ctxDone =>
      cases waiting <;> simp [matchmakingWorker, pairedIds] at hj
    | queueClosed =>
      cases waiting <;> simp [matchmakingWorker, pairedIds] at hj

/-- Erasing a key from the client map makes that key absent. -/
theorem contains_erase_self (l : List (Nat × Nat)) (c : Nat) :
    containsClient (eraseClient l c) c = false := by
  induction l with
  | nil => rfl
  | cons p l ih =>
    by_cases hp : p.1 = c
    · simp only [eraseClient, List.filter_cons] at ih ⊢
      simpa [hp] using ih
    · simp only [eraseClient, List.filter_cons] at ih ⊢
      simp only [containsClient, List.any_cons] at ih ⊢
      simp [hp]

/-- Erasing one key leaves every other key's membership unchanged. -/
theorem contains_erase_ne (l : List (Nat × Nat)) {c c2 : Nat} (h : c2 ≠ c) :
    containsClient (eraseClient l c2) c = containsClient l c := by
  induction l with
  | nil => rfl
  | cons p l ih =>
    by_cases hp : p.1 = c2
    · have hb : (p.1 == c) = false := by simp [hp, h]
      have he : eraseClient (p :: l) c2 = eraseClient l c2 := by
        simp [eraseClient, List.filter_cons, hp]
      rw [he, ih, show containsClient (p :: l) c = ((p.1 == c) || containsClient l c) from rfl,
        hb, Bool.false_or]
    · have he : eraseClient (p :: l) c2 = p :: eraseClient l c2 := by
        simp [eraseClient, List.filter_cons, hp]
      rw [he, show containsClient (p :: eraseClient l c2) c =
          ((p.1 == c) || containsClient (eraseClient l c2) c) from rfl, ih,
        show containsClient (p :: l) c = ((p.1 == c) || containsClient l c) from rfl]

/-- Membership in the map after erasing key `c2`. -/
theorem containsClient_erase (l : List (Nat × Nat)) (c c2 : Nat) :
    containsClient (eraseClient l c2) c = if c2 = c then false else containsClient l c := by
  by_cases h : c2 = c
  · subst h; simp [contains_erase_self]
  · simp [h, contains_erase_ne l h]

/-- A successful lookup means the client is present. -/
theorem containsClient_of_lookup {l : List (Nat × Nat)} {c cf : Nat}
    (h : lookupClient l c = some cf) : containsClient l c = true := by
  induction l with
  | nil => simp [lookupClient] at h
  | cons p l ih =>
    by_cases hp : p.1 = c
    · simp [containsClient, hp]
    · have hb : (p.1 == c) = false := by simpa using hp
      simp only [lookupClient, List.find?, hb] at h
      have h2 : lookupClient l c = some cf := by simpa [lookupClient] using h
      rw [show containsClient (p :: l) c = ((p.1 == c) || containsClient l c) from rfl]
      rw [hb, ih h2, Bool.false_or]

/-- Processing register/unregister messages, the membership of any
fixed client in the manager's map evolves exactly as the spec-side
liveness bit does. -/
theorem mgrFold_contains (evs : List MgrEvent) : ∀ (s : MgrState) (c : Nat),
    MgrEvent.ctxDone ∉ evs →
    containsClient
      (evs.foldl (fun t e => (managerRunStep t e).state) s).clients c =
      evs.foldl (specLiveStep c) (containsClient s.clients c) := by
  induction evs with
  | nil => intro s c _; rfl
  | cons e evs ih =>
    intro s c h
    have h2 : MgrEvent.ctxDone ∉ evs := fun hh => h (List.mem_cons_of_mem _ hh)
    cases e with
    | ctxDone => exact absurd (List.mem_cons_self _ _) h
    | register c2 cf =>
      rw [List.foldl_cons, List.foldl_cons, ih _ c h2]
      congr 1
      show containsClient ((c2, cf) :: eraseClient s.clients c2) c =
        if c2 = c then true else containsClient s.clients c
      rw [show containsClient ((c2, cf) :: eraseClient s.clients c2) c =
        ((c2 == c) || containsClient (eraseClient s.clients c2) c) from rfl]
      by_cases hc : c2 = c
      · subst hc; simp
      · have hb : (c2 == c) = false := by simpa using hc
        rw [hb, Bool.false_or, containsClient_erase, if_neg hc, if_neg hc]
    | unregister c2 =>
      rw [List.foldl_cons, List.foldl_cons, ih _ c h2]
      congr 1
      by_cases hp : containsClient s.clients c2 = true
      · have hstep : (managerRunStep s (.unregister c2)).state = cleanupClient s c2 := by
          simp [managerRunStep, hp]
        rw [hstep]
        show containsClient (eraseClient s.clients c2) c =
          if c2 = c then false else containsClient s.clients c
        exact containsClient_erase s.clients c c2
      · have hstep : (managerRunStep s (.unregister c2)).state = s := by
          simp [managerRunStep, hp]
        rw [hstep]
        show containsClient s.clients c = if c2 = c then false else containsClient s.clients c
        simp only [Bool.not_eq_true] at hp
        by_cases hc : c2 = c
        · subst hc; rw [if_pos rfl, hp]
        · rw [if_neg hc]

/-! ## Claim theorems -/

/-- C1: in every reachable broker state the number of admission tokens
held lies between 0 and the configured `maxConcurrentGames`, and it
equals the number of in-flight constructions plus live sessions — each
construction or session holds exactly one token, acquired before the
game is built and released exactly once on failure or termination. -/
theorem admission_tokens_bounded {max : Nat} {s : SemState}
    (h : SemReachable max s) :
    0 ≤ s.held ∧ s.held ≤ (max : Int) ∧ s.held = s.constructing + s.live := by
  obtain ⟨heq, hnn, hle⟩ := semInvariant h
  exact ⟨hnn, hle, heq⟩

/-- Witness for `admission_tokens_bounded`: one live session under
budget 1, reached by acquire followed by session registration. -/
theorem admission_tokens_bounded_witness :
    SemReachable 1 ⟨1, 0, 1⟩ ∧
      (0 ≤ (⟨1, 0, 1⟩ : SemState).held ∧
        (⟨1, 0, 1⟩ : SemState).held ≤ (1 : Int) ∧
        (⟨1, 0, 1⟩ : SemState).held =
          (⟨1, 0, 1⟩ : SemState).constructing + (⟨1, 0, 1⟩ : SemState).live) := by
  have h1 : SemStep 1 ⟨0, 0, 0⟩ ⟨1, 1, 0⟩ := by
    have h := @SemStep.acquire 1 ⟨0, 0, 0⟩ (by norm_num)
    simpa using h
  have h2 : SemStep 1 ⟨1, 1, 0⟩ ⟨1, 0, 1⟩ := by
    have h := @SemStep.registerSession 1 ⟨1, 1, 0⟩ (by norm_num)
    simpa using h
  have hr : SemReachable 1 ⟨1, 0, 1⟩ := .step (.step .init h1) h2
  exact ⟨hr, admission_tokens_bounded hr⟩

/-- C2 counterexample: request 0 is successfully enqueued and even
consumed by the worker; then the queue is closed by `Stop`, the
worker's `select` takes the closed-queue branch (`request == nil`) and
returns — nothing is ever sent on request 0's reply channel, so it
receives zero responses rather than exactly one. -/
theorem request_zero_replies_cex :
    reqIds [.req 0, .queueClosed] = [0] ∧
      (matchmakingWorker 1 0 none [.req 0, .queueClosed]).responded = [] :=
  ⟨rfl, rfl⟩

/-- C2 (amended): on any interleaving whose arrivals are distinct, no
request ever receives more than one reply, and every request that gets
paired receives exactly one; only a request still queued when the
worker exits, or held as the sole waiter when the worker observes the
closed queue, ends with zero replies. -/
theorem paired_requests_reply_exactly_once (max held : Nat)
    (evs : List BrokerEvent) (j : Nat) (hnd : (reqIds evs).Nodup) :
    (respondedIds (matchmakingWorker max held none evs)).count j ≤ 1 ∧
      (j ∈ pairedIds (matchmakingWorker max held none evs).pairs →
        (respondedIds (matchmakingWorker max held none evs)).count j = 1) := by
  have hA := worker_replies_le_arrivals evs max held none j
  simp only [Option.toList, List.nil_append] at hA
  have hcount : (reqIds evs).count j ≤ 1 := List.nodup_iff_count_le_one.mp hnd j
  refine ⟨le_trans hA hcount, fun hj => ?_⟩
  have hB := worker_paired_gets_reply evs max held none j hj
  omega

/-- Witness for `paired_requests_reply_exactly_once`: two distinct
arrivals pair and the first receives exactly one reply. -/
theorem paired_requests_reply_exactly_once_witness :
    (reqIds [BrokerEvent.req 0, BrokerEvent.req 1]).Nodup ∧
      0 ∈ pairedIds (matchmakingWorker 1 0 none
        [BrokerEvent.req 0, BrokerEvent.req 1]).pairs ∧
      (respondedIds (matchmakingWorker 1 0 none
        [BrokerEvent.req 0, BrokerEvent.req 1])).count 0 = 1 := by
  refine ⟨by decide, by decide, ?_⟩
  exact (paired_requests_reply_exactly_once 1 0
    [BrokerEvent.req 0, BrokerEvent.req 1] 0 (by decide)).2 (by decide)

/-- C3 counterexample: with budget 1, a token still held when arrivals
3 and 4 pair, and a release before arrivals 5 and 6: the pairing of
arrivals 3 and 4 is rejected for capacity, so the second
successfully-created session pairs arrivals 5 and 6 — not the 3rd and
4th arrivals as the claim requires (no request here is individually
withdrawn). -/
theorem fifo_sessions_cex :
    reqIds [.req 1, .req 2, .req 3, .req 4, .sessionEnd, .req 5, .req 6] =
        [1, 2, 3, 4, 5, 6] ∧
      (matchmakingWorker 1 0 none
          [.req 1, .req 2, .req 3, .req 4, .sessionEnd, .req 5, .req 6]).sessions =
        [(1, 2), (5, 6)] ∧
      [(1, 2), (5, 6)] ≠
        [((2 * 1 - 1 : Nat), (2 * 1 : Nat)), ((2 * 2 - 1 : Nat), (2 * 2 : Nat))] :=
  ⟨rfl, by decide, by decide⟩

/-- C3 (amended): pairing is strictly FIFO with no look-ahead — the
worker holds at most one waiting request, the Nth pairing attempt
consists of the (2N-1)th and (2N)th arrivals, and the created sessions
form a subsequence of those pairing attempts (capacity-rejected
attempts drop out, shifting later session numbers). -/
theorem fifo_pairing_order (max held : Nat) (l : List Nat) :
    (matchmakingWorker max held none (l.map .req)).pairs = pairChunks l ∧
      ((matchmakingWorker max held none (l.map .req)).sessions).Sublist
        (matchmakingWorker max held none (l.map .req)).pairs :=
  ⟨(worker_pairs_chunks l max held).1, worker_sessions_sublist _ max held none⟩

/-- C4 counterexample: with the queue at its capacity of 1000 and the
broker running, the enqueue failure is reported only after the
5-second `time.After` timer fires — not immediately. -/
theorem queue_full_not_immediate_cex :
    RequestGameEnqueue 1000 false = ⟨.queueFull, 5⟩ ∧
      (RequestGameEnqueue 1000 false).waitedSeconds ≠ 0 :=
  ⟨rfl, by decide⟩

/-- C4 (amended): when the queue stays at capacity and the broker is
not shutting down, `RequestGame` reports the queue-full error after the
5-second enqueue timeout, not immediately. -/
theorem queue_full_reported_after_timeout (qlen : Nat)
    (h : queueCapacity ≤ qlen) :
    RequestGameEnqueue qlen false = ⟨.queueFull, enqueueTimeoutSeconds⟩ ∧
      enqueueTimeoutSeconds = 5 := by
  refine ⟨?_, rfl⟩
  have hn : ¬ qlen < queueCapacity := Nat.not_lt.mpr h
  simp [RequestGameEnqueue, hn]

/-- Witness for `queue_full_reported_after_timeout` at exactly the
hard-coded capacity. -/
theorem queue_full_reported_after_timeout_witness :
    queueCapacity ≤ 1000 ∧
      RequestGameEnqueue 1000 false = ⟨.queueFull, enqueueTimeoutSeconds⟩ :=
  ⟨by decide, (queue_full_reported_after_timeout 1000 (by decide)).1⟩

/-- C5 (code bug): when `Run` observes external cancellation it does
tear down every remaining connection — each stored cancel handle and
each client's `Close` is invoked and the live set empties — but the
`ctx.Done()` arm of the source's `select` contains no `return`
statement, so the loop does not exit (`exits = false`) and `Run` never
returns, contrary to the claim's "and then returns from Run". -/
theorem run_teardown_without_return :
    managerRunStep ⟨[(1, 10), (2, 20)], [], []⟩ .ctxDone =
      ⟨⟨[], [20, 10], [2, 1]⟩, false, false⟩ ∧
    (managerRunStep ⟨[(1, 10), (2, 20)], [], []⟩ .ctxDone).exits = false :=
  ⟨rfl, rfl⟩

/-- C6: when two requests are paired but the non-blocking try-acquire
fails (semaphore full), `createGame` answers both requests with the
capacity error and changes nothing — no token taken, no session
registered — and the pairing loop continues with an empty waiting slot,
so neither participant is left half-matched. -/
theorem capacity_failure_both_rejected (max held : Nat) (w i : Nat)
    (evs : List BrokerEvent) (eng : EngineResults) (gid : String)
    (ids : List String) (h : ¬ held < max) :
    createGame max eng gid ⟨held, ids⟩ =
        ⟨⟨held, ids⟩, .err capacityMsg, .err capacityMsg, false⟩ ∧
      matchmakingWorker max held (some w) (.req i :: evs) =
        ⟨(w, i) :: (matchmakingWorker max held none evs).pairs,
          (matchmakingWorker max held none evs).sessions,
          (w, .capacity) :: (i, .capacity) ::
            (matchmakingWorker max held none evs).responded⟩ := by
  constructor
  · simp [createGame, h]
  · simp [matchmakingWorker, h]

/-- Witness for `capacity_failure_both_rejected` with budget 0. -/
theorem capacity_failure_both_rejected_witness :
    ¬ (0 : Nat) < 0 ∧
      createGame 0 ⟨none, none, none⟩ "g" ⟨0, []⟩ =
        ⟨⟨0, []⟩, .err capacityMsg, .err capacityMsg, false⟩ :=
  ⟨by decide,
    (capacity_failure_both_rejected 0 0 1 2 [] ⟨none, none, none⟩ "g" [] (by decide)).1⟩

/-- C7: if any construction step after token acquisition fails — adding
either player or starting the game — `createGame` delivers that
specific error to both paired requests, releases the admission token
before returning to the pairing loop (the final state holds the same
token count as before the call), and registers no session. -/
theorem construction_failure_releases_token (max : Nat) (eng : EngineResults)
    (gid : String) (s : CGState) (e : String) (htok : s.held < max)
    (hfail : eng.addPlayer1 = some e ∨
      (eng.addPlayer1 = none ∧ eng.addPlayer2 = some e) ∨
      (eng.addPlayer1 = none ∧ eng.addPlayer2 = none ∧ eng.startGame = some e)) :
    createGame max eng gid s = ⟨⟨s.held, s.activeIds⟩, .err e, .err e, false⟩ := by
  rcases hfail with h1 | ⟨h1, h2⟩ | ⟨h1, h2, h3⟩
  · simp [createGame, htok, h1]
  · simp [createGame, htok, h1, h2]
  · simp [createGame, htok, h1, h2, h3]

/-- Witness for `construction_failure_releases_token`: the engine
rejects the second participant with the source's "game is full". -/
theorem construction_failure_releases_token_witness :
    (0 : Nat) < 1 ∧
      createGame 1 ⟨none, some "game is full", none⟩ "g" ⟨0, []⟩ =
        ⟨⟨0, []⟩, .err "game is full", .err "game is full", false⟩ :=
  ⟨by decide,
    construction_failure_releases_token 1 ⟨none, some "game is full", none⟩ "g"
      ⟨0, []⟩ "game is full" (by decide) (Or.inr (Or.inl ⟨rfl, rfl⟩))⟩

/-- C8: after any sequence of register/unregister operations (duplicate
unregisters included) a connection is in the enumerated client set iff
it was registered and not unregistered since; unregistering a present
connection invokes its stored cancel handle and its `Close` exactly
once and removes it; unregistering an absent connection changes
nothing yet still signals the caller's done channel. -/
theorem registry_tracks_register_unregister (evs : List MgrEvent) (c : Nat)
    (h : MgrEvent.ctxDone ∉ evs) :
    containsClient (mgrRun evs).clients c = specLive evs c ∧
      (∀ (s : MgrState) (cf : Nat), lookupClient s.clients c = some cf →
        (managerRunStep s (.unregister c)).state.cancelledHandles =
            cf :: s.cancelledHandles ∧
          (managerRunStep s (.unregister c)).state.closedClients =
            c :: s.closedClients ∧
          containsClient (managerRunStep s (.unregister c)).state.clients c = false ∧
          (managerRunStep s (.unregister c)).acked = true) ∧
      (∀ s : MgrState, containsClient s.clients c = false →
        managerRunStep s (.unregister c) = ⟨s, false, true⟩) := by
  refine ⟨?_, ?_, ?_⟩
  · exact mgrFold_contains evs mgrInit c h
  · intro s cf hcf
    have hp : containsClient s.clients c = true := containsClient_of_lookup hcf
    have hstep : managerRunStep s (.unregister c) = ⟨cleanupClient s c, false, true⟩ := by
      simp [managerRunStep, hp]
    rw [hstep]
    refine ⟨?_, rfl, ?_, rfl⟩
    · show (match lookupClient s.clients c with
        | some cf2 => cf2 :: s.cancelledHandles
        | none => s.cancelledHandles) = cf :: s.cancelledHandles
      rw [hcf]
    · show containsClient (eraseClient s.clients c) c = false
      exact contains_erase_self s.clients c
  · intro s hp
    simp [managerRunStep, hp]

/-- Witness for `registry_tracks_register_unregister`: register then
unregister one connection. -/
theorem registry_tracks_register_unregister_witness :
    MgrEvent.ctxDone ∉ [MgrEvent.register 1 10, MgrEvent.unregister 1] ∧
      containsClient
          (mgrRun [MgrEvent.register 1 10, MgrEvent.unregister 1]).clients 1 =
        specLive [MgrEvent.register 1 10, MgrEvent.unregister 1] 1 :=
  ⟨by decide,
    (registry_tracks_register_unregister
      [MgrEvent.register 1 10, MgrEvent.unregister 1] 1 (by decide)).1⟩

/-- C9 (code bug): `GetAvailableSlots` returns `len(gameSemaphore)`,
the number of tokens currently held, not the configured maximum minus
the held tokens.  On a freshly created `NewGameBroker(100)` — a
reachable state holding no tokens — it reports 0 while the telemetry
the claim (and the function's own doc comment) describes is 100. -/
theorem getAvailableSlots_counts_held_tokens :
    SemReachable 100 ⟨0, 0, 0⟩ ∧
      GetAvailableSlots ⟨0, 0, 0⟩ = 0 ∧
      specAvailableSlots 100 ⟨0, 0, 0⟩ = 100 ∧
      GetAvailableSlots ⟨0, 0, 0⟩ ≠ specAvailableSlots 100 ⟨0, 0, 0⟩ :=
  ⟨.init, rfl, rfl, by decide⟩

/-- C10: the connection's `Write` always reports success
`(len(p), nil)` — backpressure blocks on the bounded 32-slot egress
queue instead of surfacing as an error, and a completed `Write` keeps
the queue within its capacity. -/
theorem client_write_always_succeeds (s : ClientState) (p : List Nat) :
    (Client.Write s p).n = p.length ∧
      (Client.Write s p).err = none ∧
      egressCapacity = 32 ∧
      (s.egress.length < egressCapacity →
        (Client.Write s p).state.egress.length ≤ egressCapacity) := by
  refine ⟨rfl, rfl, rfl, fun h => ?_⟩
  simp only [Client.Write, List.length_append, List.length_cons, List.length_nil]
  omega

/-- Witness for `client_write_always_succeeds` on an empty queue and a
two-byte payload. -/
theorem client_write_always_succeeds_witness :
    (Client.Write ⟨[]⟩ [7, 8]).n = 2 ∧
      (Client.Write ⟨[]⟩ [7, 8]).err = none ∧
      (Client.Write ⟨[]⟩ [7, 8]).state.egress.length ≤ egressCapacity := by
  have h := client_write_always_succeeds ⟨[]⟩ [7, 8]
  exact ⟨h.1, h.2.1, h.2.2.2 (by decide)⟩

end QuickSticks
